/-
Verification of the blog-lead-crawler backend.

Shallow embedding of the crawl pipeline of this repository:
  - api.py            (crawl_blog, extract_domain, crawler_worker_single)
  - crawler/casino_worker.py (is_casino_content, enrich_domain, casino_worker)
  - the legacy scripts (extract_commercial_links.py, crawl_page_outbound_links.py)
together with proofs of the specified properties.  Python string
operations are modelled over `List Char`; database tables are modelled as
association lists in insertion order; the workers become explicit
transition functions on those states.
-/
import Mathlib

namespace BlogCrawler

/-! ## Python string primitives (models of the str methods the source uses) -/

/-- Whitespace test modelling the default character set of Python
`str.strip()` (ASCII subset). -/
def pyIsSpaceB (c : Char) : Bool :=
  c = ' ' || c = '\t' || c = '\n' || c = '\r' || c = '\x0b' || c = '\x0c'

/-- Model of Python `str.strip()`: drop whitespace from both ends. -/
def pyStrip (l : List Char) : List Char :=
  ((l.dropWhile pyIsSpaceB).reverse.dropWhile pyIsSpaceB).reverse

/-- String-level wrapper for `pyStrip`. -/
def pyStripStr (s : String) : String := ⟨pyStrip s.data⟩

/-- Model of Python `str.startswith`. -/
def pyStartsWith (s pre : String) : Bool := pre.data.isPrefixOf s.data

/-- ASCII lower-casing of one character, modelling `str.lower()`. -/
def pyToLowerChar (c : Char) : Char :=
  if 'A' ≤ c ∧ c ≤ 'Z' then Char.ofNat (c.toNat + 32) else c

/-- Model of Python `str.lower()` (ASCII subset). -/
def pyLower (s : String) : String := ⟨s.data.map pyToLowerChar⟩

/-- Boolean contiguous-sublist test. -/
def isInfixB (needle : List Char) : List Char → Bool
  | [] => needle.isEmpty
  | c :: rest => needle.isPrefixOf (c :: rest) || isInfixB needle rest

/-- Model of the Python substring test `needle in hay`. -/
def containsSub (hay needle : String) : Bool := isInfixB needle.data hay.data

/-- Fuel-driven worker for `pyReplaceAll`; the fuel is the length of the
input, which suffices because every step consumes at least one character
when the pattern is nonempty. -/
def pyReplaceAllGo (pat : List Char) : Nat → List Char → List Char
  | 0, l => l
  | _ + 1, [] => []
  | fuel + 1, c :: rest =>
    if pat.isPrefixOf (c :: rest) = true then
      pyReplaceAllGo pat fuel (rest.drop (pat.length - 1))
    else
      c :: pyReplaceAllGo pat fuel rest

/-- Model of Python `str.replace(pat, "")` for a nonempty pattern:
every (non-overlapping, left-to-right) occurrence of `pat` is removed,
not only a leading one. -/
def pyReplaceAll (pat : List Char) (l : List Char) : List Char :=
  pyReplaceAllGo pat l.length l

/-- Model of Python `str.split(sep)` for a one-character separator.
The result is always nonempty, mirroring Python. -/
def pySplitChar (sep : Char) : List Char → List (List Char)
  | [] => [[]]
  | c :: rest =>
    match pySplitChar sep rest with
    | [] => [[c]]
    | s :: ss => if c = sep then [] :: s :: ss else (c :: s) :: ss

/-- Model of Python slicing `s[:n]`. -/
def pyTake (n : Nat) (s : String) : String := ⟨s.data.take n⟩

/-! ## Domain normalizer (api.py, `extract_domain`) -/

/-- Embeds `extract_domain` from api.py:
`url.replace("https://", "").replace("http://", "")`, then strip a
leading `"www."`, then `split("/")[0].strip()`.  Note that Python
`str.replace` removes every occurrence of the pattern, not only a
prefix, and that no lower-casing is performed. -/
def extract_domain (url : String) : String :=
  let u1 := pyReplaceAll "https://".data url.data
  let u2 := pyReplaceAll "http://".data u1
  let u3 := if pyStartsWith ⟨u2⟩ "www." = true then u2.drop 4 else u2
  ⟨pyStrip ((pySplitChar '/' u3).headD [])⟩

/-- The domain normalizer as claim C6 words it: strip an `http://` or
`https://` scheme prefix, strip a leading `www.`, truncate at the first
`/`, and lower-case the result. -/
def spec_normalize_claim (url : String) : String :=
  let u1 :=
    if pyStartsWith url "https://" = true then url.data.drop 8
    else if pyStartsWith url "http://" = true then url.data.drop 7
    else url.data
  let u2 := if "www.".data.isPrefixOf u1 = true then u1.drop 4 else u1
  ⟨(u2.takeWhile (fun c => !(c == '/'))).map pyToLowerChar⟩

/-- The normalizer contract as amended: remove every occurrence of
`https://` and then of `http://` (Python replace-all, not a prefix
strip), strip one leading `www.`, truncate at the first `/`, strip
surrounding whitespace, and preserve case (no lower-casing). -/
def amended_normalize (url : String) : String :=
  let u1 := pyReplaceAll "https://".data url.data
  let u2 := pyReplaceAll "http://".data u1
  let u3 := if pyStartsWith ⟨u2⟩ "www." = true then u2.drop 4 else u2
  ⟨pyStrip (u3.takeWhile (fun c => !(c == '/')))⟩

/-! ## URL helpers (models of urllib.parse as used by the source) -/

/-- Host part of `u` after dropping an `n`-character scheme marker:
characters up to the first `/`, `?` or `#`.  Models `urlparse(u).netloc`
for http(s) URLs. -/
def netlocAfter (n : Nat) (u : String) : String :=
  ⟨(u.data.drop n).takeWhile (fun c => !(c == '/' || c == '?' || c == '#'))⟩

/-- Origin (scheme plus netloc) of an http(s) URL. -/
def originOf (u : String) : String :=
  if pyStartsWith u "http://" = true then "http://" ++ netlocAfter 7 u
  else if pyStartsWith u "https://" = true then "https://" ++ netlocAfter 8 u
  else ""

/-- Base URL up to and including its last `/`. -/
def dirOf (u : String) : String :=
  ⟨(u.data.reverse.dropWhile (fun c => !(c == '/'))).reverse⟩

/-- Models `urllib.parse.urljoin` for the href shapes exercised here:
an absolute http(s) href is returned unchanged; a root-relative href is
joined to the base origin; any other href replaces the last path segment
of the base. -/
def urljoin_model (base href : String) : String :=
  if pyStartsWith href "http://" = true ∨ pyStartsWith href "https://" = true then href
  else if pyStartsWith href "/" = true then originOf base ++ href
  else dirOf base ++ href

/-- Models `is_valid_url` from api.py (`urlparse` scheme in http/https
and nonempty netloc), for lowercase-scheme inputs. -/
def valid_url_model (u : String) : Bool :=
  (pyStartsWith u "http://" && !(netlocAfter 7 u).data.isEmpty) ||
  (pyStartsWith u "https://" && !(netlocAfter 8 u).data.isEmpty)

/-! ## Outbound-link extraction (api.py, `crawler_worker_single`) -/

/-- One anchor element of a fetched page: its raw `href` attribute, its
(already whitespace-collapsed) text content as produced by
`a.get_text(strip=True)`, and its `rel` attribute token list. -/
structure Anchor where
  href : String
  text : String
  rel : List String
deriving DecidableEq

/-- One row of the `outbound_links` table as api.py inserts it. -/
structure OutRow where
  blog_page_id : Nat
  url : String
  commercial_domain : String
  anchor_text : String
  is_dofollow : Bool
deriving DecidableEq

/-- Embeds one iteration of the outbound-link loop of
`crawler_worker_single` in api.py: skip an anchor whose stripped href is
empty or starts with `#`; otherwise resolve the href against the page
URL (`urljoin`, passed in as the capability `uj`), normalize the domain
with `extract_domain`, truncate the anchor text to 255 characters, and
emit the row.  The INSERT writes the literal `TRUE` for `is_dofollow`;
the `rel` attribute is carried in `Anchor` only to show it is ignored.
No domain-based filtering of any kind appears in the loop. -/
def api_process_anchor (uj : String → String → String) (blog_id : Nat)
    (blog_url : String) (a : Anchor) : Option OutRow :=
  if pyStripStr a.href = "" ∨ pyStartsWith (pyStripStr a.href) "#" = true then none
  else
    some ⟨blog_id, uj blog_url (pyStripStr a.href),
          extract_domain (uj blog_url (pyStripStr a.href)),
          pyTake 255 a.text, true⟩

/-- All rows the api.py worker attempts to insert for one fetched page. -/
def api_collect_links (uj : String → String → String) (blog_id : Nat)
    (blog_url : String) (anchors : List Anchor) : List OutRow :=
  anchors.filterMap (api_process_anchor uj blog_id blog_url)

/-- Key equality on `outbound_links` rows: same source page and same
target URL. -/
def linkKeyEq (q r : OutRow) : Bool :=
  decide (q.blog_page_id = r.blog_page_id ∧ q.url = r.url)

/-- Does the table already hold a row with this row's key? -/
def hasLink (tbl : List OutRow) (r : OutRow) : Bool := tbl.any (fun q => linkKeyEq q r)

/-- Modelled from the spec: the `outbound_links` table's unique key on
(source page, target URL) is declared in the database schema, which is
not part of the repository source; spec §3 states that "(source Page,
target URL) pairs are unique" with "insert-if-absent semantics", which
gives the `INSERT ... ON CONFLICT DO NOTHING` of api.py the
skip-duplicate behaviour embedded here. -/
def insertOutbound (tbl : List OutRow) (r : OutRow) : List OutRow :=
  if hasLink tbl r = true then tbl else tbl ++ [r]

/-- Insert the same row `n` times. -/
def insertN (tbl : List OutRow) (r : OutRow) : Nat → List OutRow
  | 0 => tbl
  | n + 1 => insertOutbound (insertN tbl r n) r

/-- Number of rows sharing a key with `r`. -/
def countLink (tbl : List OutRow) (r : OutRow) : Nat :=
  (tbl.filter (fun q => linkKeyEq q r)).length

/-- Insert a stream of rows (the worker's per-page loop) into the table. -/
def recordLinks (tbl : List OutRow) : List OutRow → List OutRow
  | [] => tbl
  | r :: rows => recordLinks (insertOutbound tbl r) rows

/-! ## Casino classifier (crawler/casino_worker.py) -/

/-- Embeds `CASINO_KEYWORDS` from crawler/casino_worker.py. -/
def CASINO_KEYWORDS : List String :=
  ["casino", "gambling", "betting", "slots", "poker", "blackjack",
   "roulette", "sportsbook", "sports betting"]

/-- Embeds `is_casino_content` from crawler/casino_worker.py: lower-case
the text, then test each keyword for substring occurrence. -/
def is_casino_content (text : String) : Bool :=
  CASINO_KEYWORDS.any (fun k => containsSub (pyLower text) k)

/-- Case-insensitive occurrence of `k` in `text`, as claim C9 words it. -/
def occursCI (k text : String) : Bool := containsSub (pyLower text) (pyLower k)

/-- The keyword list exactly as claim C9 enumerates it (note `bet`). -/
def specC9Keywords : List String :=
  ["casino", "bet", "betting", "poker", "slots", "sportsbook",
   "gambling", "roulette", "blackjack"]

/-! ## Commercial-site aggregation and homepage enrichment
(api.py `commercial_sites` insert; crawler/casino_worker.py worker loop) -/

/-- One row of the `commercial_sites` table.  `none` models SQL NULL.
Modelled from the spec: the table schema with its column defaults is not
in the repository source; per spec §3 a CommercialSite is created on the
first observed OutboundLink with the enrichment fields unset and the
`is_casino` accumulation starting from false, so a fresh row is
`⟨none, none, false⟩`. -/
structure CSRec where
  meta_title : Option String
  meta_description : Option String
  is_casino : Bool
deriving DecidableEq

/-- The `commercial_sites` table in insertion order. -/
abbrev CSState := List (String × CSRec)

/-- First row with the given domain (the unique one in reachable
states). -/
def lookupCS (s : CSState) (d : String) : Option CSRec :=
  (s.find? (fun p => decide (p.1 = d))).map (fun p => p.2)

/-- Replace every row of domain `d` by `(d, r)` — the effect of
`UPDATE commercial_sites SET ... WHERE commercial_domain = d`. -/
def updCS (s : CSState) (d : String) (r : CSRec) : CSState :=
  s.map (fun p => if p.1 = d then (d, r) else p)

/-- The record the casino worker writes for one enrichment attempt:
on fetch failure (`none`, from `enrich_domain` returning None) it writes
empty strings and FALSE; on success it writes the fetched title and
description and classifies their concatenation `f"{title} {description}"`
with `is_casino_content`. -/
def enrichResultRec : Option (String × String) → CSRec
  | none => ⟨some "", some "", false⟩
  | some (t, d) => ⟨some t, some d, is_casino_content (t ++ " " ++ d)⟩

/-- Is domain `d` still selectable by the casino worker's
`SELECT ... WHERE meta_title IS NULL` query? -/
def selectableCS (s : CSState) (d : String) : Bool :=
  s.any (fun p => decide (p.1 = d ∧ p.2.meta_title = none))

/-- Operations touching `commercial_sites`:  `aggregate d` is the
api.py `INSERT INTO commercial_sites (commercial_domain) ... ON CONFLICT
DO NOTHING`; `enrich d fetch` is one iteration of the casino worker on
domain `d`, where `fetch` is the outcome of `enrich_domain`
(`none` = fetch failed or non-200; `some (title, description)` = parsed
homepage). -/
inductive CSOp
  | aggregate (d : String)
  | enrich (d : String) (fetch : Option (String × String))

/-- Transition function on the `commercial_sites` table.  An `enrich`
only fires if the worker could have selected `d` (some row of `d` has
`meta_title IS NULL`); the casino worker collapses its SELECT and UPDATE
into one step, as the worker runs sequentially. -/
def applyCS (s : CSState) : CSOp → CSState
  | .aggregate d =>
    if s.any (fun p => decide (p.1 = d)) = true then s
    else s ++ [(d, ⟨none, none, false⟩)]
  | .enrich d fetch =>
    if selectableCS s d = true then updCS s d (enrichResultRec fetch) else s

/-- Run a sequence of operations. -/
def runCS (s : CSState) : List CSOp → CSState
  | [] => s
  | op :: ops => runCS (applyCS s op) ops

/-- Is `is_casino` stored true for `d`? -/
def casinoTrue (s : CSState) (d : String) : Bool :=
  ((lookupCS s d).map (fun r => r.is_casino)).getD false

/-! ## Root registration and the crawl state machine (api.py,
`crawl_blog` and `crawler_worker_single`) -/

/-- Crawl status of a root page. -/
inductive Status
  | pending
  | in_progress
  | done
  | failed
deriving DecidableEq

/-- The `blog_pages` table: (blog_url, crawl_status) rows in insertion
order, which is also `first_crawled ASC` order.  All rows registered by
`crawl_blog` have `is_root = TRUE`. -/
abbrev BPState := List (String × Status)

/-- Embeds the canonicalization in `crawl_blog`:
`req.blog_url.strip().rstrip("/")`. -/
def pyCanon (u : String) : String :=
  ⟨((pyStrip u.data).reverse.dropWhile (fun c => c == '/')).reverse⟩

/-- Status of the first row with the given URL. -/
def lookupStatus (s : BPState) (u : String) : Option Status :=
  (s.find? (fun p => decide (p.1 = u))).map (fun p => p.2)

/-- Embeds `crawl_blog` from api.py: canonicalize, reject an empty or
invalid URL (HTTP 400, no write), then
`INSERT ... VALUES (url, TRUE, 'pending') ON CONFLICT (blog_url) DO
NOTHING` — insert-if-absent keyed on `blog_url`. -/
def crawl_blog (s : BPState) (u : String) : BPState :=
  let c := pyCanon u
  if c = "" then s
  else if valid_url_model c = false then s
  else if s.any (fun p => decide (p.1 = c)) = true then s
  else s ++ [(c, Status.pending)]

/-- Embeds one iteration of `crawler_worker_single`: select the first
root with `crawl_status = 'pending'` in `first_crawled ASC` order, claim
it, and finish it as `done` (fetch and link extraction succeeded) or
`failed` (any exception).  The transient `in_progress` claim and its
finalization are collapsed into one step, as the worker is sequential. -/
def workStep (ok : Bool) : BPState → BPState
  | [] => []
  | p :: rest =>
    if p.2 = Status.pending then
      (p.1, if ok = true then Status.done else Status.failed) :: rest
    else p :: workStep ok rest

/-- The root the next worker iteration would claim, if any. -/
def selectedPending (s : BPState) : Option String :=
  (s.find? (fun p => decide (p.2 = Status.pending))).map (fun p => p.1)

/-- Operations on `blog_pages`: a `/crawl` registration or one worker
iteration (with its fetch outcome). -/
inductive BPOp
  | register (u : String)
  | work (ok : Bool)

/-- Transition function on `blog_pages`. -/
def applyBP (s : BPState) : BPOp → BPState
  | .register u => crawl_blog s u
  | .work ok => workStep ok s

/-- Run a sequence of operations. -/
def runBP (s : BPState) : List BPOp → BPState
  | [] => s
  | op :: ops => runBP (applyBP s op) ops

/-- Register a sequence of URLs (repeated `/crawl` calls). -/
def regAll (s : BPState) : List String → BPState
  | [] => s
  | w :: ws => regAll (crawl_blog s w) ws

/-- Does the table hold a row with this canonical URL? -/
def hasUrl (s : BPState) (c : String) : Bool := s.any (fun p => decide (p.1 = c))

/-! ## Generic list lemmas -/

lemma find?_append_some {α} (p : α → Bool) {l₁ : List α} (l₂ : List α) {x : α}
    (h : l₁.find? p = some x) : (l₁ ++ l₂).find? p = some x := by
  induction l₁ with
  | nil => simp [List.find?] at h
  | cons a l ih =>
    rw [List.cons_append]
    cases hpa : p a with
    | true =>
      rw [List.find?_cons_of_pos _ hpa] at h
      rw [List.find?_cons_of_pos _ hpa]
      exact h
    | false =>
      have hpa' : ¬p a = true := by simp [hpa]
      rw [List.find?_cons_of_neg _ hpa'] at h
      rw [List.find?_cons_of_neg _ hpa']
      exact ih h

lemma nodup_fst_eq {α β : Type} {l : List (α × β)}
    (h : (l.map Prod.fst).Nodup) {p q : α × β}
    (hp : p ∈ l) (hq : q ∈ l) (he : p.1 = q.1) : p = q :=
  List.inj_on_of_nodup_map h hp hq he

lemma dropWhile_len_le {α} (p : α → Bool) :
    ∀ l : List α, (l.dropWhile p).length ≤ l.length := by
  intro l
  induction l with
  | nil => simp
  | cons c rest ih =>
    by_cases hc : p c
    · rw [List.dropWhile_cons_of_pos hc]
      exact Nat.le_succ_of_le ih
    · rw [List.dropWhile_cons_of_neg hc]

lemma dropWhile_length_eq {α} (p : α → Bool) :
    ∀ l : List α, (l.dropWhile p).length = l.length → l.dropWhile p = l := by
  intro l
  induction l with
  | nil => intro _; rfl
  | cons c rest ih =>
    intro h
    by_cases hc : p c
    · rw [List.dropWhile_cons_of_pos hc] at h ⊢
      rw [List.length_cons] at h
      have := dropWhile_len_le p rest
      omega
    · rw [List.dropWhile_cons_of_neg hc]

lemma dropWhile_head_false {α} (p : α → Bool) (c : α) (l : List α)
    (h : (c :: l).dropWhile p = c :: l) : p c = false := by
  cases hpc : p c with
  | false => rfl
  | true =>
    rw [List.dropWhile_cons_of_pos hpc] at h
    have h1 := dropWhile_len_le p l
    have h2 := congrArg List.length h
    simp at h2
    omega

/-! ## Claim C6: the domain normalizer -/

/-- Claim C6 is false as stated: `extract_domain` never lower-cases
(first input), and it removes every occurrence of the scheme markers
rather than a prefix (second input). -/
theorem c6_counterexample :
    extract_domain "https://Example.com/path" = "Example.com" ∧
    spec_normalize_claim "https://Example.com/path" = "example.com" ∧
    extract_domain "xhttps://ex.com/p" = "xex.com" ∧
    spec_normalize_claim "xhttps://ex.com/p" = "xhttps:" ∧
    ("Example.com" : String) ≠ "example.com" := by decide

lemma pySplitChar_ne_nil (sep : Char) (l : List Char) : pySplitChar sep l ≠ [] := by
  induction l with
  | nil => simp [pySplitChar]
  | cons c rest ih =>
    unfold pySplitChar
    cases h : pySplitChar sep rest with
    | nil => exact absurd h ih
    | cons s ss =>
      by_cases hc : c = sep <;> simp [hc]

lemma pySplitChar_headD (sep : Char) (l : List Char) :
    (pySplitChar sep l).headD [] = l.takeWhile (fun c => !(c == sep)) := by
  induction l with
  | nil => rfl
  | cons c rest ih =>
    unfold pySplitChar
    cases h : pySplitChar sep rest with
    | nil => exact absurd h (pySplitChar_ne_nil sep rest)
    | cons s ss =>
      rw [h] at ih
      by_cases hc : c = sep
      · simp [hc, List.takeWhile_cons]
      · have hb : (c == sep) = false := by simp [hc]
        simp only [List.takeWhile_cons, hb, if_neg hc, Bool.not_false, if_true,
          List.headD_cons]
        simp only [List.headD_cons] at ih
        rw [ih]

/-- Amended claim C6: `extract_domain` removes every occurrence of
`https://` and then of `http://` (not only a scheme prefix), strips one
leading `www.`, truncates at the first `/`, strips surrounding
whitespace, and preserves case (it never lower-cases). -/
theorem c6_normalizer_amended (url : String) :
    extract_domain url = amended_normalize url := by
  simp only [extract_domain, amended_normalize]
  rw [pySplitChar_headD]

/-! ## Claim C9: the casino classifier -/

/-- Claim C9 is false as stated: its keyword list contains `bet`, but
the classifier's list in crawler/casino_worker.py does not, so the text
`"bet"` — in which the claimed keyword `bet` occurs case-insensitively —
is classified as not casino. -/
theorem c9_counterexample :
    is_casino_content "bet" = false ∧
    "bet" ∈ specC9Keywords ∧
    occursCI "bet" "bet" = true := by decide

lemma keywords_lower : ∀ k ∈ CASINO_KEYWORDS, pyLower k = k := by decide

/-- Amended claim C9: the classifier returns true iff some keyword of
its actual fixed list (casino, gambling, betting, slots, poker,
blackjack, roulette, sportsbook, sports betting — without a bare `bet`)
occurs case-insensitively as a substring of the text; it is a pure
function of the text. -/
theorem c9_classifier_iff (text : String) :
    is_casino_content text = true ↔
      ∃ k ∈ CASINO_KEYWORDS, occursCI k text = true := by
  unfold is_casino_content occursCI
  rw [List.any_eq_true]
  constructor
  · rintro ⟨k, hk, hp⟩
    exact ⟨k, hk, by rw [keywords_lower k hk]; exact hp⟩
  · rintro ⟨k, hk, hp⟩
    rw [keywords_lower k hk] at hp
    exact ⟨k, hk, hp⟩

/-! ## Claim C2: same-domain exclusion -/

/-- Claim C2 is false on api.py: a page at
`https://blog.example.com/post` linking to
`https://blog.example.com/about` — the very same normalized domain —
gets that link recorded as an OutboundLink row. -/
theorem c2_counterexample :
    api_collect_links urljoin_model 1 "https://blog.example.com/post"
      [⟨"https://blog.example.com/about", "About us", []⟩] =
      [⟨1, "https://blog.example.com/about", "blog.example.com", "About us", true⟩] ∧
    extract_domain "https://blog.example.com/about" =
      extract_domain "https://blog.example.com/post" ∧
    recordLinks []
      (api_collect_links urljoin_model 1 "https://blog.example.com/post"
        [⟨"https://blog.example.com/about", "About us", []⟩]) =
      [⟨1, "https://blog.example.com/about", "blog.example.com", "About us", true⟩] := by
  decide

/-- Amended claim C2: the api.py worker performs no domain-based
filtering at all — every anchor whose stripped href is nonempty and not
fragment-only is recorded, same-domain links included; the same-domain
exclusion exists only in the legacy scripts. -/
theorem c2_no_same_domain_exclusion (uj : String → String → String) (bid : Nat)
    (burl : String) (anchors : List Anchor) (a : Anchor) (ha : a ∈ anchors)
    (h1 : pyStripStr a.href ≠ "")
    (h2 : pyStartsWith (pyStripStr a.href) "#" = false) :
    (⟨bid, uj burl (pyStripStr a.href),
      extract_domain (uj burl (pyStripStr a.href)),
      pyTake 255 a.text, true⟩ : OutRow) ∈ api_collect_links uj bid burl anchors := by
  unfold api_collect_links
  refine List.mem_filterMap.mpr ⟨a, ha, ?_⟩
  unfold api_process_anchor
  have hcond : ¬(pyStripStr a.href = "" ∨ pyStartsWith (pyStripStr a.href) "#" = true) := by
    rintro (h | h)
    · exact h1 h
    · rw [h2] at h
      exact Bool.false_ne_true h
  rw [if_neg hcond]

/-- The anchor of the C2 scenario. -/
def c2anchor : Anchor := ⟨"https://blog.example.com/about", "About us", []⟩

theorem c2_witness :
    (⟨1, "https://blog.example.com/about", "blog.example.com", "About us", true⟩ : OutRow) ∈
      api_collect_links urljoin_model 1 "https://blog.example.com/post" [c2anchor] := by
  have h := c2_no_same_domain_exclusion urljoin_model 1 "https://blog.example.com/post"
    [c2anchor] c2anchor (by decide) (by decide) (by decide)
  have e : (⟨1, urljoin_model "https://blog.example.com/post" (pyStripStr c2anchor.href),
      extract_domain (urljoin_model "https://blog.example.com/post" (pyStripStr c2anchor.href)),
      pyTake 255 c2anchor.text, true⟩ : OutRow) =
      ⟨1, "https://blog.example.com/about", "blog.example.com", "About us", true⟩ := by decide
  rw [e] at h
  exact h

/-! ## Claim C3: social-domain exclusion -/

/-- Claim C3 is false on the code: no social/platform deny-list exists
anywhere in the repository, and a link to `https://www.facebook.com/x`
is recorded as an OutboundLink like any other. -/
theorem c3_counterexample :
    api_collect_links urljoin_model 2 "https://blog.example.com/post"
      [⟨"https://www.facebook.com/x", "Share", []⟩] =
      [⟨2, "https://www.facebook.com/x", "facebook.com", "Share", true⟩] ∧
    recordLinks []
      (api_collect_links urljoin_model 2 "https://blog.example.com/post"
        [⟨"https://www.facebook.com/x", "Share", []⟩]) =
      [⟨2, "https://www.facebook.com/x", "facebook.com", "Share", true⟩] := by
  decide

/-- Amended claim C3: there is no social-domain deny-list — for every
page and every anchor list containing a link to
`https://www.facebook.com/x`, the worker records a facebook.com
OutboundLink row for it. -/
theorem c3_social_recorded (bid : Nat) (burl : String) (anchors : List Anchor)
    (t : String) (rel : List String)
    (ha : (⟨"https://www.facebook.com/x", t, rel⟩ : Anchor) ∈ anchors) :
    (⟨bid, "https://www.facebook.com/x", "facebook.com", pyTake 255 t, true⟩ : OutRow) ∈
      api_collect_links urljoin_model bid burl anchors := by
  unfold api_collect_links
  refine List.mem_filterMap.mpr ⟨_, ha, ?_⟩
  unfold api_process_anchor
  dsimp only
  have h1 : pyStripStr "https://www.facebook.com/x" = "https://www.facebook.com/x" := by
    decide
  rw [h1]
  rw [if_neg (by decide)]
  have hj : urljoin_model burl "https://www.facebook.com/x" =
      "https://www.facebook.com/x" := by
    unfold urljoin_model
    rw [if_pos (Or.inr (by decide))]
  rw [hj]
  rw [show extract_domain "https://www.facebook.com/x" = "facebook.com" from by decide]

theorem c3_witness :
    (⟨2, "https://www.facebook.com/x", "facebook.com", pyTake 255 "FB", true⟩ : OutRow) ∈
      api_collect_links urljoin_model 2 "https://blog.example.org/news"
        [⟨"https://www.facebook.com/x", "FB", ["noopener"]⟩] :=
  c3_social_recorded 2 "https://blog.example.org/news"
    [⟨"https://www.facebook.com/x", "FB", ["noopener"]⟩] "FB" ["noopener"] (by decide)

/-! ## Claim C4: the dofollow flag -/

/-- Claim C4 is false on api.py: an anchor whose `rel` contains
`nofollow` is still recorded with `is_dofollow = TRUE` (the INSERT
hardcodes the literal TRUE). -/
theorem c4_counterexample :
    api_process_anchor urljoin_model 3 "https://blog.example.com"
      ⟨"https://shop.example.org/sale", "Shop", ["nofollow"]⟩ =
      some ⟨3, "https://shop.example.org/sale", "shop.example.org", "Shop", true⟩ ∧
    "nofollow" ∈ (["nofollow"] : List String) := by decide

lemma mem_recordLinks :
    ∀ (rows : List OutRow) (tbl : List OutRow) (r : OutRow),
      r ∈ recordLinks tbl rows → r ∈ tbl ∨ r ∈ rows := by
  intro rows
  induction rows with
  | nil => intro tbl r h; exact Or.inl h
  | cons x rows ih =>
    intro tbl r h
    rcases ih _ r h with h' | h'
    · unfold insertOutbound at h'
      split at h'
      · exact Or.inl h'
      · rcases List.mem_append.mp h' with h'' | h''
        · exact Or.inl h''
        · rw [List.mem_singleton.mp h'']
          exact Or.inr (List.mem_cons_self x rows)
    · exact Or.inr (List.mem_cons_of_mem x h')

/-- Amended claim C4: `is_dofollow` is not derived from the anchor's
`rel` attribute at all — every OutboundLink row the api.py worker
records carries `is_dofollow = true`, whatever `rel` says.  (Only the
legacy extract_commercial_links.py script consults `rel`, and it checks
just the token `nofollow`.) -/
theorem c4_dofollow_constant_true (uj : String → String → String) (bid : Nat)
    (burl : String) (anchors : List Anchor) (tbl : List OutRow)
    (htbl : ∀ q ∈ tbl, q.is_dofollow = true) (r : OutRow)
    (hr : r ∈ recordLinks tbl (api_collect_links uj bid burl anchors)) :
    r.is_dofollow = true := by
  rcases mem_recordLinks _ tbl r hr with h | h
  · exact htbl r h
  · rcases List.mem_filterMap.mp h with ⟨a, -, heq⟩
    unfold api_process_anchor at heq
    split at heq
    · simp at heq
    · have h' := Option.some_inj.mp heq
      rw [← h']

theorem c4_witness :
    OutRow.is_dofollow ⟨3, "https://shop.example.org/sale", "shop.example.org",
      "Shop deal", true⟩ = true :=
  c4_dofollow_constant_true urljoin_model 3 "https://blog.example.com"
    [⟨"https://shop.example.org/sale", "Shop deal", ["sponsored"]⟩] []
    (by decide) _ (by decide)

/-! ## Claim C5: outbound-link dedup -/

lemma hasLink_append_self (tbl : List OutRow) (r : OutRow) :
    hasLink (tbl ++ [r]) r = true := by
  simp [hasLink, linkKeyEq]

lemma insertN_stable (tbl : List OutRow) (r : OutRow)
    (h : hasLink tbl r = true) : ∀ n, insertN tbl r n = tbl := by
  intro n
  induction n with
  | zero => rfl
  | succ n ih =>
    unfold insertN insertOutbound
    rw [ih, if_pos h]

lemma insertN_new (tbl : List OutRow) (r : OutRow)
    (h : hasLink tbl r = false) : ∀ n, insertN tbl r (n + 1) = tbl ++ [r] := by
  intro n
  induction n with
  | zero => simp [insertN, insertOutbound, h]
  | succ n ih =>
    show insertOutbound (insertN tbl r (n + 1)) r = _
    rw [ih]
    unfold insertOutbound
    rw [if_pos (hasLink_append_self tbl r)]

lemma countLink_eq_zero (tbl : List OutRow) (r : OutRow)
    (h : hasLink tbl r = false) : countLink tbl r = 0 := by
  induction tbl with
  | nil => rfl
  | cons q tbl ih =>
    rw [hasLink, List.any_cons, Bool.or_eq_false_iff] at h
    rw [countLink, List.filter_cons, h.1]
    exact ih h.2

lemma countLink_append_self (tbl : List OutRow) (r : OutRow) :
    countLink (tbl ++ [r]) r = countLink tbl r + 1 := by
  simp [countLink, List.filter_append, linkKeyEq]

/-- Claim C5: inserting the same (source page, target URL) pair any
positive number of times yields exactly one OutboundLink row, and a
duplicate insert is a no-op on the table (insert-if-absent; the
operation is a total function, so no error is ever raised). -/
theorem c5_link_dedup (tbl : List OutRow) (r : OutRow) (n : Nat) :
    (hasLink tbl r = false → 1 ≤ n → countLink (insertN tbl r n) r = 1) ∧
    (hasLink tbl r = true → insertN tbl r n = tbl) := by
  constructor
  · intro h hn
    obtain ⟨m, rfl⟩ : ∃ m, n = m + 1 := ⟨n - 1, by omega⟩
    rw [insertN_new tbl r h m, countLink_append_self, countLink_eq_zero tbl r h]
  · intro h
    exact insertN_stable tbl r h n

/-- The row of the C5 scenario. -/
def c5row : OutRow := ⟨1, "https://x.example/a", "x.example", "x", true⟩

theorem c5_witness :
    countLink (insertN [] c5row 3) c5row = 1 ∧ insertN [c5row] c5row 2 = [c5row] :=
  ⟨(c5_link_dedup [] c5row 3).1 (by decide) (by decide),
   (c5_link_dedup [c5row] c5row 2).2 (by decide)⟩

/-! ## Commercial-sites lemmas (for claims C1 and C7) -/

lemma lookupCS_mem {s : CSState} {d : String} {r : CSRec}
    (h : lookupCS s d = some r) : (d, r) ∈ s := by
  unfold lookupCS at h
  cases hf : s.find? (fun p => decide (p.1 = d)) with
  | none => rw [hf] at h; cases h
  | some q =>
    rw [hf] at h
    simp only [Option.map_some'] at h
    have hq2 : q.2 = r := Option.some_inj.mp h
    have hqs := List.mem_of_find?_eq_some hf
    have hqd : q.1 = d := by
      have hd := List.find?_some hf
      simpa using hd
    have hq : q = (d, r) := by
      cases q with
      | mk a b =>
        simp only at hq2 hqd
        rw [hq2, hqd]
    rw [← hq]
    exact hqs

lemma mem_lookupCS {s : CSState} (hNd : (s.map Prod.fst).Nodup) {d : String}
    {r : CSRec} (h : (d, r) ∈ s) : lookupCS s d = some r := by
  induction s with
  | nil => cases h
  | cons q s ih =>
    rw [List.map_cons, List.nodup_cons] at hNd
    unfold lookupCS
    by_cases hq : q.1 = d
    · rw [List.find?_cons_of_pos _ (by simp [hq])]
      rcases List.mem_cons.mp h with he | hs
      · rw [← he]
        rfl
      · have hmem : d ∈ s.map Prod.fst := List.mem_map.mpr ⟨(d, r), hs, rfl⟩
        rw [← hq] at hmem
        exact absurd hmem hNd.1
    · rw [List.find?_cons_of_neg _ (by simp [hq])]
      rcases List.mem_cons.mp h with he | hs
      · exfalso
        apply hq
        rw [← he]
      · exact ih hNd.2 hs

lemma updCS_map_fst (s : CSState) (d : String) (r : CSRec) :
    (updCS s d r).map Prod.fst = s.map Prod.fst := by
  induction s with
  | nil => rfl
  | cons q s ih =>
    by_cases hq : q.1 = d
    · simp only [updCS, List.map_cons, if_pos hq] at ih ⊢
      rw [ih, hq]
    · simp only [updCS, List.map_cons, if_neg hq] at ih ⊢
      rw [ih]

lemma mem_updCS_of_ne {s : CSState} {x : String} {r' : CSRec}
    (h : (x, r') ∈ s) {d : String} (hx : x ≠ d) (r : CSRec) :
    (x, r') ∈ updCS s d r :=
  List.mem_map.mpr ⟨(x, r'), h, by simp [hx]⟩

lemma mem_updCS_self {s : CSState} {p : String × CSRec} (hp : p ∈ s) {d : String}
    (hpd : p.1 = d) (r : CSRec) : (d, r) ∈ updCS s d r :=
  List.mem_map.mpr ⟨p, hp, by simp [hpd]⟩

lemma updCS_mem_inv {s : CSState} {d : String} {r : CSRec} {q : String × CSRec}
    (h : q ∈ updCS s d r) : q = (d, r) ∨ (q ∈ s ∧ q.1 ≠ d) := by
  rcases List.mem_map.mp h with ⟨p, hp, hf⟩
  by_cases hpd : p.1 = d
  · left
    rw [← hf, if_pos hpd]
  · right
    rw [← hf, if_neg hpd]
    exact ⟨hp, hpd⟩

lemma selectableCS_iff (s : CSState) (d : String) :
    selectableCS s d = true ↔ ∃ p ∈ s, p.1 = d ∧ p.2.meta_title = none := by
  unfold selectableCS
  rw [List.any_eq_true]
  constructor
  · rintro ⟨p, hp, hdec⟩
    exact ⟨p, hp, of_decide_eq_true hdec⟩
  · rintro ⟨p, hp, hpd⟩
    exact ⟨p, hp, decide_eq_true hpd⟩

lemma enrich_title_ne (o : Option (String × String)) :
    (enrichResultRec o).meta_title ≠ none := by
  rcases o with _ | ⟨t, dd⟩ <;> simp [enrichResultRec]

lemma casinoTrue_iff (s : CSState) (d : String) :
    casinoTrue s d = true ↔ ∃ r, lookupCS s d = some r ∧ r.is_casino = true := by
  unfold casinoTrue
  cases h : lookupCS s d <;> simp [h]

lemma runCS_append (s : CSState) (ops ops' : List CSOp) :
    runCS s (ops ++ ops') = runCS (runCS s ops) ops' := by
  induction ops generalizing s with
  | nil => rfl
  | cons op ops ih =>
    rw [List.cons_append]
    exact ih (applyCS s op)

lemma invCS_apply (s : CSState) (op : CSOp)
    (hInv : ∀ p ∈ s, p.2.meta_title = none → p.2.is_casino = false)
    (hNd : (s.map Prod.fst).Nodup) :
    (∀ p ∈ applyCS s op, p.2.meta_title = none → p.2.is_casino = false) ∧
      ((applyCS s op).map Prod.fst).Nodup := by
  cases op with
  | aggregate d =>
    simp only [applyCS]
    split_ifs with h
    · exact ⟨hInv, hNd⟩
    · have hd : ∀ p ∈ s, ¬(p.1 = d) := by
        intro p hp hpd
        exact h (List.any_eq_true.mpr ⟨p, hp, decide_eq_true hpd⟩)
      constructor
      · intro p hp ht
        rcases List.mem_append.mp hp with hp' | hp'
        · exact hInv p hp' ht
        · rw [List.mem_singleton.mp hp']
      · rw [List.map_append]
        rw [List.nodup_append]
        refine ⟨hNd, by simp, ?_⟩
        intro x hx hx'
        simp only [List.map_cons, List.map_nil, List.mem_singleton] at hx'
        rcases List.mem_map.mp hx with ⟨p, hp, hpx⟩
        exact hd p hp (by rw [hpx, hx'])
  | enrich d fetch =>
    simp only [applyCS]
    split_ifs with h
    · constructor
      · intro p hp ht
        rcases updCS_mem_inv hp with he | ⟨hp', -⟩
        · exfalso
          apply enrich_title_ne fetch
          rw [he] at ht
          exact ht
        · exact hInv p hp' ht
      · rw [updCS_map_fst]
        exact hNd
    · exact ⟨hInv, hNd⟩

lemma invCS_run (ops : List CSOp) :
    ∀ s : CSState, (∀ p ∈ s, p.2.meta_title = none → p.2.is_casino = false) →
      (s.map Prod.fst).Nodup →
      (∀ p ∈ runCS s ops, p.2.meta_title = none → p.2.is_casino = false) ∧
        ((runCS s ops).map Prod.fst).Nodup := by
  induction ops with
  | nil => intro s h1 h2; exact ⟨h1, h2⟩
  | cons op ops ih =>
    intro s h1 h2
    have hstep := invCS_apply s op h1 h2
    exact ih _ hstep.1 hstep.2

lemma casino_sticky_apply (s : CSState) (op : CSOp) (d : String)
    (hInv : ∀ p ∈ s, p.2.meta_title = none → p.2.is_casino = false)
    (hNd : (s.map Prod.fst).Nodup)
    (h : casinoTrue s d = true) : casinoTrue (applyCS s op) d = true := by
  rw [casinoTrue_iff] at h ⊢
  rcases h with ⟨r, hl, hc⟩
  cases op with
  | aggregate dd =>
    simp only [applyCS]
    split_ifs with hp
    · exact ⟨r, hl, hc⟩
    · refine ⟨r, ?_, hc⟩
      unfold lookupCS at hl ⊢
      cases hf : s.find? (fun p => decide (p.1 = d)) with
      | none => rw [hf] at hl; cases hl
      | some q =>
        rw [hf] at hl
        rw [find?_append_some _ _ hf]
        exact hl
  | enrich dd fetch =>
    simp only [applyCS]
    split_ifs with hsel
    · by_cases hdd : d = dd
      · subst hdd
        rcases (selectableCS_iff s d).mp hsel with ⟨p, hp, hpd, hpt⟩
        have hmem := lookupCS_mem hl
        have hpq : p = (d, r) := nodup_fst_eq hNd hp hmem (by rw [hpd])
        have hrt : r.meta_title = none := by
          rw [hpq] at hpt
          exact hpt
        have hrc : r.is_casino = false := hInv (d, r) hmem hrt
        rw [hrc] at hc
        exact absurd hc Bool.false_ne_true
      · refine ⟨r, ?_, hc⟩
        have hmem := lookupCS_mem hl
        have hmem' : (d, r) ∈ updCS s dd (enrichResultRec fetch) :=
          mem_updCS_of_ne hmem hdd (enrichResultRec fetch)
        exact mem_lookupCS (by rw [updCS_map_fst]; exact hNd) hmem'
    · exact ⟨r, hl, hc⟩

lemma casino_sticky_run (ops : List CSOp) :
    ∀ (s : CSState) (d : String),
      (∀ p ∈ s, p.2.meta_title = none → p.2.is_casino = false) →
      (s.map Prod.fst).Nodup →
      casinoTrue s d = true → casinoTrue (runCS s ops) d = true := by
  induction ops with
  | nil => intro s d _ _ h; exact h
  | cons op ops ih =>
    intro s d h1 h2 h
    have hstep := invCS_apply s op h1 h2
    exact ih _ d hstep.1 hstep.2 (casino_sticky_apply s op d h1 h2 h)

/-! ## Claim C1: the casino flag is sticky -/

/-- Claim C1: in every execution of the system from an empty
`commercial_sites` table, once `is_casino` is stored true for a domain,
no later aggregation insert or homepage-enrichment write ever turns it
back to false.  (The enrichment UPDATE is a plain overwrite, but it only
ever fires on rows whose `meta_title` is still NULL, and every reachable
row with a NULL `meta_title` still has `is_casino = false`, so each
write's new value equals the OR of the stored value with the computed
flag.) -/
theorem c1_sticky_casino (ops ops' : List CSOp) (d : String)
    (h : casinoTrue (runCS [] ops) d = true) :
    casinoTrue (runCS [] (ops ++ ops')) d = true := by
  rw [runCS_append]
  have hinv := invCS_run ops []
    (by intro p hp; exact absurd hp (List.not_mem_nil p)) (by simp)
  exact casino_sticky_run ops' _ d hinv.1 hinv.2 h

theorem c1_witness :
    casinoTrue (runCS []
      ([CSOp.aggregate "bets.example",
        CSOp.enrich "bets.example" (some ("Top Casino", "best slots"))] ++
       [CSOp.enrich "bets.example" none, CSOp.aggregate "bets.example"]))
      "bets.example" = true :=
  c1_sticky_casino _ _ "bets.example" (by decide)

/-! ## Claim C7: homepage-enrichment failure handling -/

/-- Claim C7 is false on the code: after a failed homepage fetch the
casino worker does not leave the domain's checked gate open — it writes
`meta_title = ''` (and empty description, `is_casino = FALSE`), so the
row stops matching `meta_title IS NULL` and is never retried. -/
theorem c7_counterexample :
    selectableCS (runCS [] [CSOp.aggregate "shop.example"]) "shop.example" = true ∧
    selectableCS (runCS [] [CSOp.aggregate "shop.example",
      CSOp.enrich "shop.example" none]) "shop.example" = false ∧
    lookupCS (runCS [] [CSOp.aggregate "shop.example",
      CSOp.enrich "shop.example" none]) "shop.example" =
      some ⟨some "", some "", false⟩ := by decide

/-- Amended claim C7: when the homepage fetch for a selected domain
fails, the worker immediately marks the domain checked with empty
fields (`meta_title = ''`, `meta_description = ''`,
`is_casino = FALSE`), and the domain is no longer selectable by any
later enrichment pass — it is never retried. -/
theorem c7_failure_marks_checked (s : CSState) (d : String)
    (hNd : (s.map Prod.fst).Nodup) (hsel : selectableCS s d = true) :
    lookupCS (applyCS s (CSOp.enrich d none)) d = some ⟨some "", some "", false⟩ ∧
    selectableCS (applyCS s (CSOp.enrich d none)) d = false := by
  simp only [applyCS]
  rw [if_pos hsel]
  constructor
  · rcases (selectableCS_iff s d).mp hsel with ⟨p, hp, hpd, -⟩
    have hmem : (d, enrichResultRec none) ∈ updCS s d (enrichResultRec none) :=
      mem_updCS_self hp hpd (enrichResultRec none)
    exact mem_lookupCS (by rw [updCS_map_fst]; exact hNd) hmem
  · cases hsel' : selectableCS (updCS s d (enrichResultRec none)) d with
    | false => rfl
    | true =>
      exfalso
      rcases (selectableCS_iff _ d).mp hsel' with ⟨p', hp', hpd', hpt'⟩
      rcases updCS_mem_inv hp' with he | ⟨-, hne⟩
      · rw [he] at hpt'
        exact enrich_title_ne none hpt'
      · exact hne hpd'

theorem c7_witness :
    lookupCS (applyCS
      [("a.example", ⟨none, none, false⟩), ("b.example", ⟨none, none, false⟩)]
      (CSOp.enrich "b.example" none)) "b.example" = some ⟨some "", some "", false⟩ ∧
    selectableCS (applyCS
      [("a.example", ⟨none, none, false⟩), ("b.example", ⟨none, none, false⟩)]
      (CSOp.enrich "b.example" none)) "b.example" = false :=
  c7_failure_marks_checked
    [("a.example", ⟨none, none, false⟩), ("b.example", ⟨none, none, false⟩)]
    "b.example" (by decide) (by decide)

/-! ## Crawl-state-machine lemmas (for claims C8 and C10) -/

lemma lookupStatus_append {s : BPState} (t : BPState) {u : String} {st : Status}
    (h : lookupStatus s u = some st) : lookupStatus (s ++ t) u = some st := by
  unfold lookupStatus at h ⊢
  cases hf : s.find? (fun p => decide (p.1 = u)) with
  | none => rw [hf] at h; cases h
  | some q =>
    rw [hf] at h
    rw [find?_append_some _ _ hf]
    exact h

lemma crawl_blog_cases (s : BPState) (w : String) :
    crawl_blog s w = s ∨
      (crawl_blog s w = s ++ [(pyCanon w, Status.pending)] ∧
        hasUrl s (pyCanon w) = false) := by
  unfold crawl_blog
  dsimp only
  split_ifs with h1 h2 h3
  · exact Or.inl rfl
  · exact Or.inl rfl
  · exact Or.inl rfl
  · refine Or.inr ⟨rfl, ?_⟩
    unfold hasUrl
    cases hh : s.any (fun p => decide (p.1 = pyCanon w)) with
    | false => rfl
    | true => exact absurd hh h3

lemma crawl_blog_failed {s : BPState} {u : String}
    (h : lookupStatus s u = some Status.failed) (w : String) :
    lookupStatus (crawl_blog s w) u = some Status.failed := by
  rcases crawl_blog_cases s w with he | ⟨he, -⟩
  · rw [he]; exact h
  · rw [he]; exact lookupStatus_append _ h

lemma crawl_blog_nodup {s : BPState} (h : (s.map Prod.fst).Nodup) (w : String) :
    ((crawl_blog s w).map Prod.fst).Nodup := by
  rcases crawl_blog_cases s w with he | ⟨he, hu⟩
  · rw [he]; exact h
  · rw [he, List.map_append, List.nodup_append]
    refine ⟨h, by simp, ?_⟩
    intro x hx hx'
    simp only [List.map_cons, List.map_nil, List.mem_singleton] at hx'
    rcases List.mem_map.mp hx with ⟨p, hp, hpx⟩
    have : s.any (fun p => decide (p.1 = pyCanon w)) = true :=
      List.any_eq_true.mpr ⟨p, hp, decide_eq_true (by rw [hpx, hx'])⟩
    rw [hasUrl] at hu
    rw [hu] at this
    exact Bool.false_ne_true this

lemma workStep_map_fst (ok : Bool) :
    ∀ s : BPState, (workStep ok s).map Prod.fst = s.map Prod.fst := by
  intro s
  induction s with
  | nil => rfl
  | cons p s ih =>
    unfold workStep
    by_cases hp : p.2 = Status.pending
    · rw [if_pos hp]
      simp
    · rw [if_neg hp]
      simp [ih]

lemma workStep_failed (ok : Bool) :
    ∀ (s : BPState) (u : String), lookupStatus s u = some Status.failed →
      lookupStatus (workStep ok s) u = some Status.failed := by
  intro s
  induction s with
  | nil => intro u h; exact h
  | cons p s ih =>
    intro u h
    unfold workStep
    by_cases hp : p.2 = Status.pending
    · rw [if_pos hp]
      unfold lookupStatus at h ⊢
      by_cases hu : p.1 = u
      · rw [List.find?_cons_of_pos _ (by simp [hu])] at h
        simp only [Option.map_some'] at h
        have : p.2 = Status.failed := Option.some_inj.mp h
        rw [hp] at this
        cases this
      · rw [List.find?_cons_of_neg _ (by simp [hu])] at h
        rw [List.find?_cons_of_neg _ (by simp [hu])]
        exact h
    · rw [if_neg hp]
      unfold lookupStatus at h ⊢
      by_cases hu : p.1 = u
      · rw [List.find?_cons_of_pos _ (by simp [hu])] at h ⊢
        exact h
      · rw [List.find?_cons_of_neg _ (by simp [hu])] at h ⊢
        exact ih u h

lemma runBP_failed_nodup (ops : List BPOp) :
    ∀ (s : BPState) (u : String), (s.map Prod.fst).Nodup →
      lookupStatus s u = some Status.failed →
      ((runBP s ops).map Prod.fst).Nodup ∧
        lookupStatus (runBP s ops) u = some Status.failed := by
  induction ops with
  | nil => intro s u h1 h2; exact ⟨h1, h2⟩
  | cons op ops ih =>
    intro s u h1 h2
    cases op with
    | register w =>
      exact ih (crawl_blog s w) u (crawl_blog_nodup h1 w) (crawl_blog_failed h2 w)
    | work ok =>
      refine ih (workStep ok s) u ?_ (workStep_failed ok s u h2)
      rw [workStep_map_fst]
      exact h1

lemma lookupStatus_mem {s : BPState} {u : String} {st : Status}
    (h : lookupStatus s u = some st) : (u, st) ∈ s := by
  unfold lookupStatus at h
  cases hf : s.find? (fun p => decide (p.1 = u)) with
  | none => rw [hf] at h; cases h
  | some q =>
    rw [hf] at h
    simp only [Option.map_some'] at h
    have hq2 : q.2 = st := Option.some_inj.mp h
    have hqs := List.mem_of_find?_eq_some hf
    have hqd : q.1 = u := by
      have hd := List.find?_some hf
      simpa using hd
    have hq : q = (u, st) := by
      cases q with
      | mk a b =>
        simp only at hq2 hqd
        rw [hq2, hqd]
    rw [← hq]
    exact hqs

lemma selectedPending_mem {s : BPState} {u : String}
    (h : selectedPending s = some u) : (u, Status.pending) ∈ s := by
  unfold selectedPending at h
  cases hf : s.find? (fun p => decide (p.2 = Status.pending)) with
  | none => rw [hf] at h; cases h
  | some q =>
    rw [hf] at h
    simp only [Option.map_some'] at h
    have hq1 : q.1 = u := Option.some_inj.mp h
    have hqs := List.mem_of_find?_eq_some hf
    have hqd : q.2 = Status.pending := by
      have hd := List.find?_some hf
      simpa using hd
    have hq : q = (u, Status.pending) := by
      cases q with
      | mk a b =>
        simp only at hq1 hqd
        rw [hq1, hqd]
    rw [← hq]
    exact hqs

/-! ## Claim C8: a failed root is terminal -/

/-- Claim C8: in every reachable state, a root whose `crawl_status` is
`failed` stays `failed` under any further sequence of registrations and
worker iterations, and it is never the root that a worker iteration
selects (the claim query demands `crawl_status = 'pending'`). -/
theorem c8_failed_terminal (s : BPState) (ops : List BPOp) (u : String)
    (hnd : (s.map Prod.fst).Nodup)
    (h : lookupStatus s u = some Status.failed) :
    lookupStatus (runBP s ops) u = some Status.failed ∧
      selectedPending (runBP s ops) ≠ some u := by
  obtain ⟨hnd', hfail⟩ := runBP_failed_nodup ops s u hnd h
  refine ⟨hfail, ?_⟩
  intro hsel
  have hp := selectedPending_mem hsel
  have hq := lookupStatus_mem hfail
  have : (u, Status.pending) = (u, Status.failed) := nodup_fst_eq hnd' hp hq rfl
  have h2 : Status.pending = Status.failed := congrArg Prod.snd this
  cases h2

theorem c8_witness :
    lookupStatus (runBP
      [("https://a.test", Status.failed), ("https://b.test", Status.pending)]
      [BPOp.work true, BPOp.register "https://a.test", BPOp.work false])
      "https://a.test" = some Status.failed ∧
    selectedPending (runBP
      [("https://a.test", Status.failed), ("https://b.test", Status.pending)]
      [BPOp.work true, BPOp.register "https://a.test", BPOp.work false]) ≠
      some "https://a.test" :=
  c8_failed_terminal
    [("https://a.test", Status.failed), ("https://b.test", Status.pending)]
    [BPOp.work true, BPOp.register "https://a.test", BPOp.work false]
    "https://a.test" (by decide) (by decide)

/-! ## Claim C10: root registration canonicalizes and deduplicates -/

lemma string_data_append (a b : String) : (a ++ b).data = a.data ++ b.data := by
  cases a
  cases b
  rfl

lemma canon_append_slash (u : String) (hu : pyStrip u.data = u.data) :
    pyCanon (u ++ "/") = pyCanon u := by
  have hdata : (u ++ "/").data = u.data ++ ['/'] := by
    rw [string_data_append]
  have hA : u.data.dropWhile pyIsSpaceB = u.data := by
    apply dropWhile_length_eq
    have k1 := congrArg List.length hu
    unfold pyStrip at k1
    rw [List.length_reverse] at k1
    have k2 := dropWhile_len_le pyIsSpaceB ((u.data.dropWhile pyIsSpaceB).reverse)
    rw [List.length_reverse] at k2
    have k3 := dropWhile_len_le pyIsSpaceB u.data
    omega
  have hB : u.data.reverse.dropWhile pyIsSpaceB = u.data.reverse := by
    have k1 : ((u.data.dropWhile pyIsSpaceB).reverse.dropWhile pyIsSpaceB).reverse
        = u.data := hu
    rw [hA] at k1
    have k2 := congrArg List.reverse k1
    rw [List.reverse_reverse] at k2
    exact k2
  have hfront : (u.data ++ ['/']).dropWhile pyIsSpaceB = u.data ++ ['/'] := by
    cases hud : u.data with
    | nil => decide
    | cons c rest =>
      rw [hud] at hA
      have hc : pyIsSpaceB c = false := dropWhile_head_false pyIsSpaceB c rest hA
      have hc' : ¬pyIsSpaceB c = true := by simp [hc]
      rw [List.cons_append, List.dropWhile_cons_of_neg hc']
  have hrev : (u.data ++ ['/']).reverse = '/' :: u.data.reverse := by
    rw [List.reverse_append]
    rfl
  have hback : ('/' :: u.data.reverse).dropWhile pyIsSpaceB
      = '/' :: u.data.reverse := by
    have hs : ¬pyIsSpaceB '/' = true := by decide
    rw [List.dropWhile_cons_of_neg hs]
  have hstrip : pyStrip (u.data ++ ['/']) = u.data ++ ['/'] := by
    unfold pyStrip
    rw [hfront, hrev, hback, List.reverse_cons, List.reverse_reverse]
  have hdw : List.dropWhile (fun c => c == '/') ('/' :: u.data.reverse)
      = List.dropWhile (fun c => c == '/') u.data.reverse := by
    simp [List.dropWhile_cons]
  unfold pyCanon
  rw [hdata, hstrip, hu, hrev, hdw]

lemma crawl_blog_props (s : BPState) (w c : String) (hw : pyCanon w = c)
    (hall : ∀ p ∈ s, p.1 = c) (hlen : s.length ≤ 1) :
    (∀ p ∈ crawl_blog s w, p.1 = c) ∧ (crawl_blog s w).length ≤ 1 := by
  rcases crawl_blog_cases s w with he | ⟨he, hu⟩
  · rw [he]
    exact ⟨hall, hlen⟩
  · rw [he, hw]
    have hs : s = [] := by
      cases s with
      | nil => rfl
      | cons p s' =>
        exfalso
        have hmem : hasUrl (p :: s') (pyCanon w) = true := by
          unfold hasUrl
          refine List.any_eq_true.mpr ⟨p, List.mem_cons_self p s', ?_⟩
          exact decide_eq_true (by rw [hall p (List.mem_cons_self p s'), hw])
        rw [hmem] at hu
        cases hu
    subst hs
    constructor
    · intro p hp
      rw [List.nil_append, List.mem_singleton] at hp
      rw [hp]
    · simp

lemma regAll_singleton_key (c : String) :
    ∀ (ws : List String) (s : BPState), (∀ w ∈ ws, pyCanon w = c) →
      (∀ p ∈ s, p.1 = c) → s.length ≤ 1 →
      (regAll s ws).length ≤ 1 := by
  intro ws
  induction ws with
  | nil => intro s _ _ hlen; exact hlen
  | cons w ws ih =>
    intro s hws hall hlen
    have hw : pyCanon w = c := hws w (List.mem_cons_self w ws)
    have hstep := crawl_blog_props s w c hw hall hlen
    exact ih (crawl_blog s w) (fun w' hw' => hws w' (List.mem_cons_of_mem w hw'))
      hstep.1 hstep.2

lemma crawl_blog_noop (s : BPState) (w c : String) (hw : pyCanon w = c)
    (h : hasUrl s c = true) : crawl_blog s w = s := by
  unfold crawl_blog
  dsimp only
  rw [hw]
  split_ifs with h1 h2 h3
  · rfl
  · rfl
  · rfl
  · exfalso
    unfold hasUrl at h
    exact h3 h

lemma regAll_noop (c : String) :
    ∀ (ws : List String) (s : BPState), (∀ w ∈ ws, pyCanon w = c) →
      hasUrl s c = true → regAll s ws = s := by
  intro ws
  induction ws with
  | nil => intro s _ _; rfl
  | cons w ws ih =>
    intro s hws h
    have he := crawl_blog_noop s w c (hws w (List.mem_cons_self w ws)) h
    show regAll (crawl_blog s w) ws = s
    rw [he]
    exact ih s (fun w' hw' => hws w' (List.mem_cons_of_mem w hw')) h

/-- Claim C10: `crawl_blog` canonicalizes by stripping trailing slashes,
so registering `u` and `u ++ "/"` (in any order, any number of times)
creates at most one root row in total, and when a row with the canonical
URL already exists, every such registration leaves the whole table —
including that row's `crawl_status` — unchanged.  The hypothesis
`pyStrip u.data = u.data` states that the URL carries no surrounding
whitespace, as any valid URL does. -/
theorem c10_register_idempotent (u : String) (ws : List String) (s : BPState)
    (hu : pyStrip u.data = u.data)
    (hws : ∀ w ∈ ws, w = u ∨ w = u ++ "/") :
    (regAll [] ws).length ≤ 1 ∧
      (hasUrl s (pyCanon u) = true → regAll s ws = s) := by
  have hkey : ∀ w ∈ ws, pyCanon w = pyCanon u := by
    intro w hw
    rcases hws w hw with rfl | rfl
    · rfl
    · exact canon_append_slash u hu
  constructor
  · exact regAll_singleton_key (pyCanon u) ws []
      hkey (by intro p hp; cases hp) (by simp)
  · intro hhas
    exact regAll_noop (pyCanon u) ws s hkey hhas

theorem c10_witness :
    (regAll [] ["https://a.test", "https://a.test/", "https://a.test"]).length ≤ 1 ∧
      regAll [("https://a.test", Status.done)]
        ["https://a.test", "https://a.test/", "https://a.test"] =
        [("https://a.test", Status.done)] :=
  ⟨(c10_register_idempotent "https://a.test"
      ["https://a.test", "https://a.test/", "https://a.test"] []
      (by decide) (by decide)).1,
   (c10_register_idempotent "https://a.test"
      ["https://a.test", "https://a.test/", "https://a.test"]
      [("https://a.test", Status.done)] (by decide) (by decide)).2 (by decide)⟩

end BlogCrawler
